import Mathlib

/-!
Verification of the resilience layer of the linklibrary-mcp server:
the sliding-window rate limiter (src/utils/rate-limiter.ts), the
LRU + TTL in-memory cache (src/utils/cache.ts), the retrying API client
(src/services/api-client.ts) and the authentication service
(src/services/auth-service.ts), shallowly embedded as pure Lean
functions over explicit state, with wall-clock time passed in as an
explicit integer parameter (Date.now in the source).
-/

/-! ## Association-list model of a JS Map

A JS Map is modelled as an insertion-ordered association list with
unique keys.  Map.get, Map.set and Map.delete are mapGet, mapSet and
mapDelete: set overwrites in place or appends at the end, delete
removes the (unique) binding of the key. -/

/-- Map.get: first binding of the key, if any. -/
def mapGet {α : Type} (m : List (String × α)) (k : String) : Option α :=
  match m with
  | [] => none
  | (k', v) :: rest => if k' = k then some v else mapGet rest k

/-- Map.set: overwrite the first binding in place, or append at the end. -/
def mapSet {α : Type} (m : List (String × α)) (k : String) (v : α) :
    List (String × α) :=
  match m with
  | [] => [(k, v)]
  | (k', v') :: rest =>
      if k' = k then (k, v) :: rest else (k', v') :: mapSet rest k v

/-- Map.delete: remove the first binding of the key. -/
def mapDelete {α : Type} (m : List (String × α)) (k : String) :
    List (String × α) :=
  match m with
  | [] => []
  | (k', v') :: rest =>
      if k' = k then rest else (k', v') :: mapDelete rest k

/-! ## RateLimiter (src/utils/rate-limiter.ts) -/

/-- One element of the per-key request list (interface RateLimitEntry). -/
structure RateLimitEntry where
  timestamp : Int
  count : Int
deriving Repr, DecidableEq

/-- The mutable state of class RateLimiter: the requests map plus the
two readonly configuration numbers. -/
structure RateLimiterState where
  requests : List (String × List RateLimitEntry)
  maxRequests : Int
  windowMs : Int
deriving Repr, DecidableEq

/-- The reduce callback of RateLimiter.getResetTime: keep whichever of
the accumulator and the current entry has the smaller timestamp. -/
def olderOf (oldest current : RateLimitEntry) : RateLimitEntry :=
  if current.timestamp < oldest.timestamp then current else oldest

namespace RateLimiterState

/-- RateLimiter.isAllowed(key): prune entries at or before now minus
windowMs, sum the counts, admit iff the sum is below maxRequests, and
on admission write back the pruned list with a fresh entry appended.
Returns the boolean together with the updated state. -/
def isAllowed (s : RateLimiterState) (key : String) (now : Int) :
    Bool × RateLimiterState :=
  let windowStart := now - s.windowMs
  let entries0 := (mapGet s.requests key).getD []
  let entries := entries0.filter (fun e => e.timestamp > windowStart)
  let totalRequests := (entries.map (fun e => e.count)).foldl (· + ·) 0
  if totalRequests < s.maxRequests then
    (true,
      { s with
        requests := mapSet s.requests key (entries ++ [⟨now, 1⟩]) })
  else
    (false, s)

/-- RateLimiter.getRemaining(key). -/
def getRemaining (s : RateLimiterState) (key : String) (now : Int) : Int :=
  let windowStart := now - s.windowMs
  let entries := (mapGet s.requests key).getD []
  let validEntries := entries.filter (fun e => e.timestamp > windowStart)
  let totalRequests := (validEntries.map (fun e => e.count)).foldl (· + ·) 0
  max 0 (s.maxRequests - totalRequests)

/-- RateLimiter.getResetTime(key): Date.now() when no entries are
stored; otherwise the timestamp of the oldest stored entry (reduce
over the whole unpruned list) plus windowMs. -/
def getResetTime (s : RateLimiterState) (key : String) (now : Int) : Int :=
  match (mapGet s.requests key).getD [] with
  | [] => now
  | e :: rest => (rest.foldl olderOf e).timestamp + s.windowMs

end RateLimiterState

/-- The record returned by RateLimiter.getInfo(key). -/
structure RateLimitInfo where
  remaining : Int
  resetTime : Int
  limit : Int
  windowMs : Int
deriving Repr, DecidableEq

/-- RateLimiter.getInfo(key). -/
def RateLimiterState.getInfo (s : RateLimiterState) (key : String)
    (now : Int) : RateLimitInfo :=
  { remaining := s.getRemaining key now
    resetTime := s.getResetTime key now
    limit := s.maxRequests
    windowMs := s.windowMs }

/-- Specification-side count: total of the counts of the entries whose
timestamp lies strictly inside the trailing window ending at now. -/
def inWindowTotal (entries : List RateLimitEntry) (now windowMs : Int) : Int :=
  ((entries.filter (fun e => e.timestamp > now - windowMs)).map
    (fun e => e.count)).foldl (· + ·) 0

/-! ## InMemoryCache (src/utils/cache.ts) -/

/-- interface CacheEntry of src/types.ts: the stored value together
with the write timestamp and the time to live. -/
structure CacheEntry (T : Type) where
  data : T
  timestamp : Int
  ttl : Int
deriving Repr, DecidableEq

/-- The mutable state of class InMemoryCache: the entry map, the
recency list accessOrder (least recently used first), and the two
readonly configuration values. -/
structure InMemoryCache (T : Type) where
  cache : List (String × CacheEntry T)
  accessOrder : List String
  maxSize : Nat
  defaultTtl : Int
deriving Repr, DecidableEq

namespace InMemoryCache

/-- InMemoryCache.delete(key): remove the map entry and the single
occurrence of the key in accessOrder (indexOf followed by splice).
Returns whether an entry existed, with the updated state. -/
def delete {T : Type} (s : InMemoryCache T) (key : String) :
    Bool × InMemoryCache T :=
  if (mapGet s.cache key).isSome then
    (true,
      { s with
        cache := mapDelete s.cache key
        accessOrder := s.accessOrder.erase key })
  else
    (false, s)

/-- InMemoryCache.evictLRU: drop the head of accessOrder (the least
recently used key) and its map entry; a no-op on an empty list. -/
def evictLRU {T : Type} (s : InMemoryCache T) : InMemoryCache T :=
  match s.accessOrder with
  | [] => s
  | oldestKey :: rest =>
      { s with cache := mapDelete s.cache oldestKey, accessOrder := rest }

/-- The expression (ttl || this.defaultTtl) in InMemoryCache.set: a
missing ttl and also a ttl of exactly 0 (falsy in JS) both fall back
to the default. -/
def effectiveTtl (ttl : Option Int) (defaultTtl : Int) : Int :=
  match ttl with
  | none => defaultTtl
  | some t => if t = 0 then defaultTtl else t

/-- InMemoryCache.set(key, value, ttl): compute the effective ttl,
delete any old entry, append the new entry and push the key, then
evict the LRU entry if the map has grown past maxSize. -/
def set {T : Type} (s : InMemoryCache T) (key : String) (value : T)
    (ttl : Option Int) (now : Int) : InMemoryCache T :=
  let entryTtl : Int := effectiveTtl ttl s.defaultTtl
  let s1 := (s.delete key).2
  let s2 :=
    { s1 with
      cache := mapSet s1.cache key ⟨value, now, entryTtl⟩
      accessOrder := s1.accessOrder ++ [key] }
  if s2.cache.length > s2.maxSize then s2.evictLRU else s2

/-- InMemoryCache.updateAccessOrder(key): move the key to the most
recently used position at the end of accessOrder. -/
def updateAccessOrder {T : Type} (s : InMemoryCache T) (key : String) :
    InMemoryCache T :=
  { s with accessOrder := s.accessOrder.erase key ++ [key] }

/-- InMemoryCache.get(key): a missing entry is a miss; an entry whose
age strictly exceeds its ttl is deleted and reported as a miss; a live
entry is returned after updating the recency order. -/
def get {T : Type} (s : InMemoryCache T) (key : String) (now : Int) :
    Option T × InMemoryCache T :=
  match mapGet s.cache key with
  | none => (none, s)
  | some entry =>
      if now - entry.timestamp > entry.ttl then
        (none, (s.delete key).2)
      else
        (some entry.data, s.updateAccessOrder key)

/-- InMemoryCache.has(key): like get, including the lazy deletion of
an expired entry, but without touching the recency order. -/
def has {T : Type} (s : InMemoryCache T) (key : String) (now : Int) :
    Bool × InMemoryCache T :=
  match mapGet s.cache key with
  | none => (false, s)
  | some entry =>
      if now - entry.timestamp > entry.ttl then
        (false, (s.delete key).2)
      else
        (true, s)

/-- InMemoryCache.clear(): drop every entry and the whole recency
list. -/
def clear {T : Type} (s : InMemoryCache T) : InMemoryCache T :=
  { s with cache := [], accessOrder := [] }

/-- Bookkeeping invariant of the cache: the recency list holds exactly
the keys present in the map, each exactly once. -/
def wf {T : Type} (s : InMemoryCache T) : Prop :=
  s.accessOrder.Nodup ∧ (s.cache.map Prod.fst).Perm s.accessOrder

instance {T : Type} (s : InMemoryCache T) : Decidable s.wf := by
  unfold wf; infer_instance

end InMemoryCache

/-! ## ApiClient (src/services/api-client.ts) -/

/-- The shape of the error object axios hands to the response
interceptor: an optional response (status together with the optional
data.message), an optional error code and an optional message. -/
structure RawApiError where
  response : Option (Int × Option String)
  code : Option String
  message : Option String
deriving Repr, DecidableEq

/-- The typed errors of src/types.ts.  AuthenticationError,
ValidationError and RateLimitError are subclasses of LinkLibraryError
with fixed status codes 401, 400 and 429; the base class carries an
explicit statusCode. -/
inductive ClassifiedError where
  | authenticationError (message : String)
  | validationError (message : String)
  | rateLimitError (message : String)
  | linkLibraryError (message : String) (statusCode : Int)
deriving Repr, DecidableEq

/-- True exactly for the ValidationError subclass. -/
def ClassifiedError.isValidationError : ClassifiedError → Bool
  | .validationError _ => true
  | _ => false

/-- ApiClient.handleApiError: the switch on the response status with
the 401, 400, 429 and 500 cases and the generic default, then the
ECONNABORTED and ENOTFOUND code checks, then the fallback. -/
def handleApiError (error : RawApiError) : ClassifiedError :=
  match error.response with
  | some (status, data) =>
      if status = 401 then
        .authenticationError (data.getD "Authentication failed")
      else if status = 400 then
        .validationError (data.getD "Invalid request")
      else if status = 429 then
        .rateLimitError (data.getD "Rate limit exceeded")
      else if status = 500 then
        .linkLibraryError (data.getD "Internal server error") 500
      else
        .linkLibraryError
          (data.getD ("HTTP " ++ toString status ++ " error")) status
  | none =>
      if error.code = some "ECONNABORTED" then
        .linkLibraryError "Request timeout" 408
      else if error.code = some "ENOTFOUND" then
        .linkLibraryError "Service unavailable" 503
      else
        .linkLibraryError (error.message.getD "Unknown error") 500

/-- ApiClient.shouldRetry reads error.response.status (optional
chaining).  With a response: 4xx retries only on 429, otherwise retry
exactly on 5xx.  Without a response field both comparisons are false
and the final disjunct (not error.response) yields true. -/
def shouldRetry (responseStatus : Option Int) : Bool :=
  match responseStatus with
  | some status =>
      if 400 ≤ status ∧ status < 500 then decide (status = 429)
      else decide (500 ≤ status)
  | none => true

/-- The error caught inside makeRequestWithRetry has already been
replaced by the response interceptor with a LinkLibraryError subclass,
which is a plain Error without an axios response field, so reading
error.response on it always yields undefined. -/
def ClassifiedError.responseStatus : ClassifiedError → Option Int :=
  fun _ => none

/-- Equality of Except values is decidable componentwise. -/
instance {ε α : Type} [DecidableEq ε] [DecidableEq α] :
    DecidableEq (Except ε α) := fun a b =>
  match a, b with
  | .ok x, .ok y =>
      if h : x = y then .isTrue (by rw [h]) else .isFalse (by simp [h])
  | .error x, .error y =>
      if h : x = y then .isTrue (by rw [h]) else .isFalse (by simp [h])
  | .ok _, .error _ => .isFalse (by simp)
  | .error _, .ok _ => .isFalse (by simp)

/-- ApiClient.makeRequestWithRetry, with the recursion measured by an
explicit fuel argument: call the transport (attempt numbers start at
1); the response interceptor turns a failure into a classified error
before the catch block sees it; retry while the attempt number is at
most maxRetries and shouldRetry accepts the caught error.  The fuel is
kept equal to maxRetries + 1 - attempt by the wrapper below, so fuel
exhaustion coincides exactly with the source guard attempt greater
than maxRetries.  The second component records the number of the last
attempt performed, that is the number of transport dispatches. -/
def makeRequestWithRetryFuel {T : Type}
    (transport : Nat → Except RawApiError T) (fuel attempt : Nat) :
    Except ClassifiedError T × Nat :=
  match fuel, transport attempt with
  | _, .ok v => (.ok v, attempt)
  | 0, .error rawError => (.error (handleApiError rawError), attempt)
  | fuel' + 1, .error rawError =>
      let classified := handleApiError rawError
      if shouldRetry classified.responseStatus then
        makeRequestWithRetryFuel transport fuel' (attempt + 1)
      else
        (.error classified, attempt)

/-- ApiClient.makeRequestWithRetry as called with a given starting
attempt number: attempt at most maxRetries is the retry guard, which
the fuel value maxRetries + 1 - attempt realises. -/
def makeRequestWithRetry {T : Type} (transport : Nat → Except RawApiError T)
    (maxRetries : Nat) (attempt : Nat) : Except ClassifiedError T × Nat :=
  makeRequestWithRetryFuel transport (maxRetries + 1 - attempt) attempt

/-- CacheUtils.generateKey: join the string parts with colons. -/
def generateKey (parts : List String) : String :=
  String.intercalate ":" parts

/-- The state the ApiClient.request pipeline reads and writes: the
global rate limiter and the global cache. -/
structure ApiClientState (T : Type) where
  limiter : RateLimiterState
  cache : InMemoryCache T
deriving Repr, DecidableEq

/-- ApiClient.request: admission check against the global rate limiter
first (on rejection a RateLimitError built from getInfo is thrown and
nothing else happens), then for GET requests a cache lookup whose hit
is returned as is, then the retrying dispatch, and on a successful GET
the response is cached for 300000 ms.  The JS truthiness test on the
cached value and on the response is the explicit parameter truthy.
The result carries the updated state and the number of transport
dispatches performed. -/
def ApiClient.request {T : Type} (truthy : T → Bool) (s : ApiClientState T)
    (method url params : String) (transport : Nat → Except RawApiError T)
    (maxRetries : Nat) (now : Int) :
    Except ClassifiedError T × ApiClientState T × Nat :=
  let rateLimitKey := "api:" ++ method ++ ":" ++ url
  let checked := s.limiter.isAllowed rateLimitKey now
  if checked.1 = false then
    let info := checked.2.getInfo rateLimitKey now
    (.error (.rateLimitError
        ("Rate limit exceeded for " ++ method ++ " " ++ url ++ ". Limit: " ++
          toString info.limit ++ " requests per " ++ toString info.windowMs ++
          "ms.")),
      ⟨checked.2, s.cache⟩, 0)
  else
    let s1 : ApiClientState T := ⟨checked.2, s.cache⟩
    let cacheKey := generateKey ["api", method, url, params]
    let cacheLookup :=
      if method.toLower = "get" then s1.cache.get cacheKey now
      else (none, s1.cache)
    match cacheLookup.1 with
    | some v =>
        if truthy v then (.ok v, ⟨s1.limiter, cacheLookup.2⟩, 0)
        else
          makeRequestContinue truthy ⟨s1.limiter, cacheLookup.2⟩ method
            cacheKey transport maxRetries now
    | none =>
        makeRequestContinue truthy ⟨s1.limiter, cacheLookup.2⟩ method
          cacheKey transport maxRetries now
where
  /-- The tail of request after the cache lookup: dispatch with retry,
  then cache a truthy successful GET response. -/
  makeRequestContinue (truthy : T → Bool) (s : ApiClientState T)
      (method cacheKey : String) (transport : Nat → Except RawApiError T)
      (maxRetries : Nat) (now : Int) :
      Except ClassifiedError T × ApiClientState T × Nat :=
    let dispatched := makeRequestWithRetry transport maxRetries 1
    match dispatched.1 with
    | .ok response =>
        if method.toLower = "get" ∧ truthy response then
          (.ok response,
            ⟨s.limiter, s.cache.set cacheKey response (some 300000) now⟩,
            dispatched.2)
        else
          (.ok response, s, dispatched.2)
    | .error e => (.error e, s, dispatched.2)

/-! ## AuthService (src/services/auth-service.ts) -/

/-- interface LinkLibraryUser (the fields the auth service reads). -/
structure LinkLibraryUser where
  id : String
  email : String
  full_name : Option String
deriving Repr, DecidableEq

/-- interface LinkLibraryAuthResponse (the fields the auth service
reads). -/
structure LinkLibraryAuthResponse where
  access_token : String
  user : LinkLibraryUser
deriving Repr, DecidableEq

/-- The state owned by class AuthService together with the pieces of
collaborator state it writes: currentUser and the pending one-shot
refresh timer live on the service itself, apiToken is
ApiClient.currentToken, and tokenCache is the slice of the global
cache the token handling touches. -/
structure AuthServiceState where
  currentUser : Option LinkLibraryUser
  tokenRefreshTimer : Bool
  apiToken : Option String
  tokenCache : InMemoryCache String
deriving Repr, DecidableEq

namespace AuthService

/-- AuthService.setToken: install the token on the api client and
cache it for 3600000 ms under the key auth:token.  currentUser is not
touched. -/
def setToken (s : AuthServiceState) (token : String) (now : Int) :
    AuthServiceState :=
  { s with
    apiToken := some token
    tokenCache := s.tokenCache.set "auth:token" token (some 3600000) now }

/-- AuthService.clearToken: clear the api client token, null
currentUser, delete the cached token and cancel a pending refresh
timer.  (The source also guards a user-cache delete behind a check of
currentUser, but currentUser has just been set to null, so that branch
is dead.) -/
def clearToken (s : AuthServiceState) : AuthServiceState :=
  { s with
    apiToken := none
    currentUser := none
    tokenCache := (s.tokenCache.delete "auth:token").2
    tokenRefreshTimer := false }

/-- AuthService.isAuthenticated: currentUser is not null. -/
def isAuthenticated (s : AuthServiceState) : Bool :=
  s.currentUser.isSome

/-- The AuthService constructor: fresh fields, then setToken with the
environment token when one is configured.  The cache configuration of
the global cache instance is passed explicitly. -/
def mkInit (envToken : Option String) (cacheMaxSize : Nat)
    (cacheTtl : Int) (now : Int) : AuthServiceState :=
  let s0 : AuthServiceState :=
    { currentUser := none
      tokenRefreshTimer := false
      apiToken := none
      tokenCache := ⟨[], [], cacheMaxSize, cacheTtl⟩ }
  match envToken with
  | some t => setToken s0 t now
  | none => s0

/-- AuthService.refreshToken, with the outcome of the post to
/auth/refresh passed in: on success install the new token and replace
currentUser, returning true; on any error clearToken and return
false. -/
def refreshToken (s : AuthServiceState)
    (response : Except ClassifiedError LinkLibraryAuthResponse)
    (now : Int) : Bool × AuthServiceState :=
  match response with
  | .ok r =>
      let s1 := setToken s r.access_token now
      (true, { s1 with currentUser := some r.user })
  | .error _ => (false, clearToken s)

/-- AuthService.setupTokenRefresh: cancel any pending timer and arm a
fresh one-shot timer. -/
def setupTokenRefresh (s : AuthServiceState) : AuthServiceState :=
  { s with tokenRefreshTimer := true }

/-- The body of the one-shot timer armed by setupTokenRefresh: the
timer has fired (so it is no longer pending), refreshToken runs with
the outcome of the refresh call, and only a successful refresh re-arms
the next timer. -/
def onRefreshTimerFire (s : AuthServiceState)
    (response : Except ClassifiedError LinkLibraryAuthResponse)
    (now : Int) : AuthServiceState :=
  let fired := { s with tokenRefreshTimer := false }
  let step := refreshToken fired response now
  if step.1 then setupTokenRefresh step.2 else step.2

end AuthService

/-! ## Concrete states used in the theorems below -/

/-- Scenario state: a fresh limiter with limit 2 and window 1000 ms. -/
def rlDemo0 : RateLimiterState := ⟨[], 2, 1000⟩

/-- Scenario state after the first immediate admission for x. -/
def rlDemo1 : RateLimiterState := (rlDemo0.isAllowed "x" 0).2

/-- Scenario state after the second immediate admission for x. -/
def rlDemo2 : RateLimiterState := (rlDemo1.isAllowed "x" 0).2

/-- Scenario state after the third immediate check for x. -/
def rlDemo3 : RateLimiterState := (rlDemo2.isAllowed "x" 0).2

/-- State used against claim C6: a fresh limiter with limit 2 and
window 1000 ms. -/
def rlC6a : RateLimiterState := ⟨[], 2, 1000⟩

/-- State used against claim C6 after an admission for x at time 0. -/
def rlC6b : RateLimiterState := (rlC6a.isAllowed "x" 0).2

/-- State used against claim C6 after a second admission for x at time
600. -/
def rlC6c : RateLimiterState := (rlC6b.isAllowed "x" 600).2

/-- An empty cache with maximum size 2 used in the LRU scenario. -/
def c4a : InMemoryCache Int := ⟨[], [], 2, 300000⟩

/-- LRU scenario after storing a. -/
def c4b : InMemoryCache Int := c4a.set "a" 1 none 0

/-- LRU scenario after storing a then b, which fills the cache. -/
def c4c : InMemoryCache Int := c4b.set "b" 2 none 0

/-- LRU scenario after additionally touching a via get, which makes b
the least recently used key. -/
def c4d : InMemoryCache Int := (c4c.get "a" 1).2

/-- LRU scenario: overflowing the touched cache with c evicts b. -/
def c4e : InMemoryCache Int := c4d.set "c" 3 none 1

/-- LRU scenario: overflowing the untouched cache with c evicts a. -/
def c4f : InMemoryCache Int := c4c.set "c" 3 none 1

/-- An empty cache with maximum size 10 used against claim C5 and in
the TTL witnesses. -/
def c5cache : InMemoryCache Int := ⟨[], [], 10, 300000⟩

/-- A limiter with limit 0, which rejects every admission check. -/
def rlZero : RateLimiterState := ⟨[], 0, 60000⟩

/-- Client state built from the rejecting limiter and an empty cache,
used to witness the admission rejection path of request. -/
def apiStateC7 : ApiClientState Int := ⟨rlZero, ⟨[], [], 10, 300000⟩⟩

/-! ## Helper lemmas about the Map model -/

theorem mapGet_eq_none_iff {α : Type} (m : List (String × α)) (k : String) :
    mapGet m k = none ↔ k ∉ m.map Prod.fst := by
  induction m with
  | nil => simp [mapGet]
  | cons p rest ih =>
      obtain ⟨k', v⟩ := p
      by_cases h : k' = k
      · subst h
        simp [mapGet]
      · simp [mapGet, h, ih, Ne.symm h]

theorem mapGet_isSome_iff {α : Type} (m : List (String × α)) (k : String) :
    (mapGet m k).isSome = true ↔ k ∈ m.map Prod.fst := by
  rw [Option.isSome_iff_ne_none, ne_eq, mapGet_eq_none_iff, not_not]

theorem keys_mapDelete {α : Type} (m : List (String × α)) (k : String) :
    (mapDelete m k).map Prod.fst = (m.map Prod.fst).erase k := by
  induction m with
  | nil => simp [mapDelete]
  | cons p rest ih =>
      obtain ⟨k', v⟩ := p
      by_cases h : k' = k
      · subst h
        simp [mapDelete, List.erase_cons_head]
      · simp [mapDelete, h, ih, List.erase_cons_tail,
          beq_eq_false_iff_ne, Ne.symm h]

theorem mapSet_of_mapGet_none {α : Type} {m : List (String × α)}
    {k : String} (v : α) (h : mapGet m k = none) :
    mapSet m k v = m ++ [(k, v)] := by
  induction m with
  | nil => simp [mapSet]
  | cons p rest ih =>
      obtain ⟨k', v'⟩ := p
      by_cases hk : k' = k
      · subst hk
        simp [mapGet] at h
      · simp [mapGet, hk] at h
        simp [mapSet, hk, ih h]

theorem mapGet_mapSet_self {α : Type} (m : List (String × α)) (k : String)
    (v : α) : mapGet (mapSet m k v) k = some v := by
  induction m with
  | nil => simp [mapSet, mapGet]
  | cons p rest ih =>
      obtain ⟨k', v'⟩ := p
      by_cases hk : k' = k
      · subst hk
        simp [mapSet, mapGet]
      · simp [mapSet, mapGet, hk, ih]

theorem mapGet_mapDelete_ne {α : Type} (m : List (String × α)) {a b : String}
    (h : a ≠ b) : mapGet (mapDelete m a) b = mapGet m b := by
  induction m with
  | nil => simp [mapDelete]
  | cons p rest ih =>
      obtain ⟨k', v'⟩ := p
      by_cases hk : k' = a
      · subst hk
        simp [mapDelete, mapGet, h]
      · by_cases hb : k' = b
        · subst hb
          simp [mapDelete, hk, mapGet]
        · simp [mapDelete, hk, mapGet, hb, ih]

theorem mapGet_mapDelete_self {α : Type} {m : List (String × α)} (a : String)
    (h : (m.map Prod.fst).Nodup) : mapGet (mapDelete m a) a = none := by
  rw [mapGet_eq_none_iff, keys_mapDelete]
  exact h.not_mem_erase

theorem length_mapDelete_of_mem {α : Type} {m : List (String × α)}
    {k : String} (h : k ∈ m.map Prod.fst) :
    (mapDelete m k).length + 1 = m.length := by
  induction m with
  | nil => simp at h
  | cons p rest ih =>
      obtain ⟨k', v'⟩ := p
      by_cases hk : k' = k
      · subst hk
        simp [mapDelete]
      · rw [List.map_cons, List.mem_cons] at h
        rcases h with h | h
        · exact absurd h.symm hk
        · simp [mapDelete, hk, ih h]

theorem mapGet_mapSet_ne {α : Type} (m : List (String × α)) {a b : String}
    (h : a ≠ b) (v : α) : mapGet (mapSet m a v) b = mapGet m b := by
  induction m with
  | nil => simp [mapSet, mapGet, h]
  | cons p rest ih =>
      obtain ⟨k', v'⟩ := p
      by_cases hk : k' = a
      · subst hk
        simp [mapSet, mapGet, h]
      · simp [mapSet, mapGet, hk, ih]

/-! ## Helper lemmas about the cache bookkeeping -/

namespace InMemoryCache

theorem keys_nodup {T : Type} {s : InMemoryCache T} (h : s.wf) :
    (s.cache.map Prod.fst).Nodup :=
  h.2.nodup_iff.mpr h.1

theorem mem_accessOrder_iff {T : Type} {s : InMemoryCache T} (h : s.wf)
    (k : String) : k ∈ s.accessOrder ↔ k ∈ s.cache.map Prod.fst :=
  (h.2.mem_iff).symm

theorem delete_of_none {T : Type} {s : InMemoryCache T} {k : String}
    (h : mapGet s.cache k = none) : (s.delete k).2 = s := by
  unfold delete
  rw [h]
  rfl

theorem delete_maxSize {T : Type} (s : InMemoryCache T) (k : String) :
    (s.delete k).2.maxSize = s.maxSize := by
  unfold delete
  split <;> rfl

theorem delete_defaultTtl {T : Type} (s : InMemoryCache T) (k : String) :
    (s.delete k).2.defaultTtl = s.defaultTtl := by
  unfold delete
  split <;> rfl

theorem wf_delete {T : Type} {s : InMemoryCache T} (h : s.wf) (k : String) :
    (s.delete k).2.wf := by
  unfold delete
  split
  · refine ⟨h.1.erase k, ?_⟩
    show ((mapDelete s.cache k).map Prod.fst).Perm (s.accessOrder.erase k)
    rw [keys_mapDelete]
    exact h.2.erase k
  · exact h

theorem length_delete_le {T : Type} (s : InMemoryCache T) (k : String) :
    (s.delete k).2.cache.length ≤ s.cache.length := by
  unfold delete
  split
  · rename_i hsome
    rw [mapGet_isSome_iff] at hsome
    have := length_mapDelete_of_mem hsome
    show (mapDelete s.cache k).length ≤ s.cache.length
    omega
  · exact le_refl _

theorem mapGet_delete_self {T : Type} {s : InMemoryCache T} (h : s.wf)
    (k : String) : mapGet (s.delete k).2.cache k = none := by
  unfold delete
  split
  · exact mapGet_mapDelete_self k (keys_nodup h)
  · rename_i hnone
    exact Option.not_isSome_iff_eq_none.mp hnone

theorem not_mem_accessOrder_delete {T : Type} {s : InMemoryCache T}
    (h : s.wf) (k : String) : k ∉ (s.delete k).2.accessOrder := by
  intro hk
  have hmem := (mem_accessOrder_iff (wf_delete h k) k).mp hk
  have hnone := mapGet_delete_self h k
  rw [mapGet_eq_none_iff] at hnone
  exact hnone hmem

theorem wf_evictLRU {T : Type} {s : InMemoryCache T} (h : s.wf) :
    s.evictLRU.wf := by
  unfold evictLRU
  split
  · exact h
  · rename_i oldestKey rest hao
    refine ⟨?_, ?_⟩
    · have := h.1
      rw [hao] at this
      exact this.of_cons
    · show ((mapDelete s.cache oldestKey).map Prod.fst).Perm rest
      rw [keys_mapDelete]
      have hperm := h.2.erase oldestKey
      rw [hao, List.erase_cons_head] at hperm
      exact hperm

theorem evictLRU_maxSize {T : Type} (s : InMemoryCache T) :
    s.evictLRU.maxSize = s.maxSize := by
  unfold evictLRU
  split <;> rfl

theorem length_evictLRU {T : Type} {s : InMemoryCache T} (h : s.wf)
    (hne : s.accessOrder ≠ []) :
    s.evictLRU.cache.length + 1 = s.cache.length := by
  unfold evictLRU
  split
  · rename_i hao
    exact absurd hao hne
  · rename_i oldestKey rest hao
    have hmem : oldestKey ∈ s.cache.map Prod.fst := by
      rw [← mem_accessOrder_iff h, hao]
      exact List.mem_cons_self _ _
    have := length_mapDelete_of_mem hmem
    show (mapDelete s.cache oldestKey).length + 1 = s.cache.length
    omega

/-- The insert step inside set: writing a fresh key and pushing it at
the end of the recency list preserves the bookkeeping invariant. -/
theorem wf_insert_fresh {T : Type} {s : InMemoryCache T} (h : s.wf)
    {k : String} (hnone : mapGet s.cache k = none) (e : CacheEntry T) :
    InMemoryCache.wf
      { s with
        cache := mapSet s.cache k e
        accessOrder := s.accessOrder ++ [k] } := by
  have hkeys : k ∉ s.cache.map Prod.fst := (mapGet_eq_none_iff _ _).mp hnone
  have hao : k ∉ s.accessOrder := fun hk =>
    hkeys ((mem_accessOrder_iff h k).mp hk)
  refine ⟨?_, ?_⟩
  · exact h.1.append (List.nodup_singleton k)
      (by rw [List.disjoint_singleton]; exact hao)
  · show ((mapSet s.cache k e).map Prod.fst).Perm (s.accessOrder ++ [k])
    rw [mapSet_of_mapGet_none e hnone, List.map_append]
    simp only [List.map_cons, List.map_nil]
    exact h.2.append_right [k]

theorem evictLRU_cons {T : Type} {s : InMemoryCache T} {hd : String}
    {tl : List String} (hao : s.accessOrder = hd :: tl) :
    s.evictLRU = { s with cache := mapDelete s.cache hd, accessOrder := tl } := by
  unfold evictLRU
  rw [hao]

theorem wf_set {T : Type} {s : InMemoryCache T} (h : s.wf) (k : String)
    (v : T) (ttl : Option Int) (now : Int) : (s.set k v ttl now).wf := by
  have h1 := wf_delete h k
  have h2 := mapGet_delete_self h k
  have hwf2 := wf_insert_fresh h1 h2
    ⟨v, now, effectiveTtl ttl s.defaultTtl⟩
  simp only [set]
  split
  · exact wf_evictLRU hwf2
  · exact hwf2

theorem length_set_le {T : Type} {s : InMemoryCache T} (h : s.wf)
    (hlen : s.cache.length ≤ s.maxSize) (k : String) (v : T)
    (ttl : Option Int) (now : Int) :
    (s.set k v ttl now).cache.length ≤ s.maxSize := by
  have h1 := wf_delete h k
  have h2 := mapGet_delete_self h k
  have hwf2 := wf_insert_fresh h1 h2
    ⟨v, now, effectiveTtl ttl s.defaultTtl⟩
  have hlen1 := length_delete_le s k
  have hmax1 := delete_maxSize s k
  have hset := mapSet_of_mapGet_none
    (⟨v, now, effectiveTtl ttl s.defaultTtl⟩ : CacheEntry T) h2
  have hlen2 : (mapSet (s.delete k).2.cache k
      ⟨v, now, effectiveTtl ttl s.defaultTtl⟩).length =
      (s.delete k).2.cache.length + 1 := by
    rw [hset]
    simp
  simp only [set]
  split
  · rename_i hover
    have hne : (s.delete k).2.accessOrder ++ [k] ≠ [] := by simp
    have hev := length_evictLRU hwf2 hne
    simp only at hev ⊢
    omega
  · rename_i hnotover
    simp only at hnotover ⊢
    omega

/-- Decomposition of set: there is an intermediate state holding the
freshly written entry, from which set either evicts or not depending
on the size check. -/
theorem set_eq_cases {T : Type} (s : InMemoryCache T) (k : String) (v : T)
    (ttl : Option Int) (now : Int) :
    ∃ s2 : InMemoryCache T,
      s2.cache = mapSet (s.delete k).2.cache k
        ⟨v, now, effectiveTtl ttl s.defaultTtl⟩ ∧
      s2.accessOrder = (s.delete k).2.accessOrder ++ [k] ∧
      s2.maxSize = s.maxSize ∧
      s.set k v ttl now =
        (if s2.cache.length > s2.maxSize then s2.evictLRU else s2) := by
  refine ⟨{ (s.delete k).2 with
      cache := mapSet (s.delete k).2.cache k
        ⟨v, now, effectiveTtl ttl s.defaultTtl⟩
      accessOrder := (s.delete k).2.accessOrder ++ [k] },
    rfl, rfl, delete_maxSize s k, rfl⟩

theorem mapGet_set_self {T : Type} {s : InMemoryCache T} (h : s.wf)
    (hpos : 0 < s.maxSize) (k : String) (v : T) (ttl : Option Int)
    (now : Int) :
    mapGet (s.set k v ttl now).cache k =
      some ⟨v, now, effectiveTtl ttl s.defaultTtl⟩ := by
  have h1 := wf_delete h k
  have h2 := mapGet_delete_self h k
  have hao1 : k ∉ (s.delete k).2.accessOrder := not_mem_accessOrder_delete h k
  have hset := mapSet_of_mapGet_none
    (⟨v, now, effectiveTtl ttl s.defaultTtl⟩ : CacheEntry T) h2
  obtain ⟨s2, hc, ha, hm, heq⟩ := set_eq_cases s k v ttl now
  rw [heq]
  split
  · rename_i hover
    cases hcase : (s.delete k).2.accessOrder with
    | nil =>
        exfalso
        have hlen1 : (s.delete k).2.cache.length = 0 := by
          have := h1.2.length_eq
          rw [hcase] at this
          simpa using this
        have hlen2 : s2.cache.length = 1 := by
          rw [hc, hset]
          simp [hlen1]
        rw [hlen2, hm] at hover
        omega
    | cons hd tl =>
        have hhd_ne : hd ≠ k := by
          intro hcontra
          apply hao1
          rw [hcase, hcontra]
          exact List.mem_cons_self _ _
        have hao2 : s2.accessOrder = hd :: (tl ++ [k]) := by
          rw [ha, hcase]
          rfl
        rw [evictLRU_cons hao2]
        show mapGet (mapDelete s2.cache hd) k = _
        rw [mapGet_mapDelete_ne _ hhd_ne, hc]
        exact mapGet_mapSet_self _ _ _
  · rw [hc]
    exact mapGet_mapSet_self _ _ _

theorem set_count_one {T : Type} {s : InMemoryCache T} (h : s.wf)
    (hpos : 0 < s.maxSize) (k : String) (v : T) (ttl : Option Int)
    (now : Int) :
    (s.set k v ttl now).accessOrder.count k = 1 ∧
    ((s.set k v ttl now).cache.map Prod.fst).count k = 1 := by
  have hwf' := wf_set h k v ttl now
  have hsome : (mapGet (s.set k v ttl now).cache k).isSome = true := by
    rw [mapGet_set_self h hpos]
    rfl
  have hmemk := (mapGet_isSome_iff _ _).mp hsome
  have hmema := (mem_accessOrder_iff hwf' k).mpr hmemk
  exact ⟨List.count_eq_one_of_mem hwf'.1 hmema,
    List.count_eq_one_of_mem (keys_nodup hwf') hmemk⟩

/-- Filling a full cache with a fresh key evicts exactly the least
recently used key: the head of the recency list goes, the new key is
stored at the most recently used position, and every other entry is
untouched. -/
theorem set_fresh_full {T : Type} {s : InMemoryCache T} (h : s.wf)
    {k : String} (hnone : mapGet s.cache k = none)
    (hfull : s.cache.length = s.maxSize) (_hpos : 0 < s.maxSize)
    {lru : String} {rest : List String} (hao : s.accessOrder = lru :: rest)
    (v : T) (ttl : Option Int) (now : Int) :
    (s.set k v ttl now).accessOrder = rest ++ [k] ∧
    mapGet (s.set k v ttl now).cache lru = none ∧
    mapGet (s.set k v ttl now).cache k =
      some ⟨v, now, effectiveTtl ttl s.defaultTtl⟩ ∧
    ∀ k2, k2 ≠ lru → k2 ≠ k →
      mapGet (s.set k v ttl now).cache k2 = mapGet s.cache k2 := by
  have hdel : (s.delete k).2 = s := delete_of_none hnone
  have hset := mapSet_of_mapGet_none
    (⟨v, now, effectiveTtl ttl s.defaultTtl⟩ : CacheEntry T) hnone
  have hk_notmem : k ∉ s.cache.map Prod.fst := (mapGet_eq_none_iff _ _).mp hnone
  have hlru_mem : lru ∈ s.cache.map Prod.fst := by
    rw [← mem_accessOrder_iff h, hao]
    exact List.mem_cons_self _ _
  have hlru_ne : lru ≠ k := fun hcontra => hk_notmem (hcontra ▸ hlru_mem)
  have hwf2 := wf_insert_fresh h hnone
    ⟨v, now, effectiveTtl ttl s.defaultTtl⟩
  have hlen2 : (mapSet s.cache k
      ⟨v, now, effectiveTtl ttl s.defaultTtl⟩).length = s.maxSize + 1 := by
    rw [hset]
    simp [hfull]
  simp only [set, hdel]
  have hcond : (mapSet s.cache k
      (⟨v, now, effectiveTtl ttl s.defaultTtl⟩ : CacheEntry T)).length >
      s.maxSize := by omega
  rw [if_pos hcond]
  have haorec : s.accessOrder ++ [k] = lru :: (rest ++ [k]) := by
    rw [hao]
    rfl
  rw [evictLRU_cons (by simpa using haorec)]
  refine ⟨rfl, ?_, ?_, ?_⟩
  · show mapGet (mapDelete (mapSet s.cache k
      ⟨v, now, effectiveTtl ttl s.defaultTtl⟩) lru) lru = none
    exact mapGet_mapDelete_self lru (keys_nodup hwf2)
  · show mapGet (mapDelete (mapSet s.cache k
      ⟨v, now, effectiveTtl ttl s.defaultTtl⟩) lru) k = _
    rw [mapGet_mapDelete_ne _ hlru_ne]
    exact mapGet_mapSet_self _ _ _
  · intro k2 hk2lru hk2k
    show mapGet (mapDelete (mapSet s.cache k
      ⟨v, now, effectiveTtl ttl s.defaultTtl⟩) lru) k2 = mapGet s.cache k2
    rw [mapGet_mapDelete_ne _ (Ne.symm hk2lru)]
    rw [mapGet_mapSet_ne _ (Ne.symm hk2k)]

/-- A get on a live entry returns its data and moves the key to the
most recently used position without touching the entry map. -/
theorem get_hit {T : Type} {s : InMemoryCache T} {k : String}
    {entry : CacheEntry T} {now : Int}
    (hentry : mapGet s.cache k = some entry)
    (hlive : now - entry.timestamp ≤ entry.ttl) :
    s.get k now = (some entry.data, s.updateAccessOrder k) := by
  unfold get
  rw [hentry]
  simp only
  rw [if_neg (by omega)]

/-- A get on an expired entry deletes it and reports a miss. -/
theorem get_expired {T : Type} {s : InMemoryCache T} {k : String}
    {entry : CacheEntry T} {now : Int}
    (hentry : mapGet s.cache k = some entry)
    (hexp : now - entry.timestamp > entry.ttl) :
    s.get k now = (none, (s.delete k).2) := by
  unfold get
  rw [hentry]
  simp only
  rw [if_pos hexp]

theorem wf_updateAccessOrder {T : Type} {s : InMemoryCache T} (h : s.wf)
    {k : String} (hmem : k ∈ s.accessOrder) :
    (s.updateAccessOrder k).wf := by
  refine ⟨?_, ?_⟩
  · show (s.accessOrder.erase k ++ [k]).Nodup
    refine (h.1.erase k).append (List.nodup_singleton k) ?_
    rw [List.disjoint_singleton]
    exact h.1.not_mem_erase
  · show (s.cache.map Prod.fst).Perm (s.accessOrder.erase k ++ [k])
    refine h.2.trans ?_
    refine (List.perm_cons_erase hmem).trans ?_
    exact (List.perm_append_singleton _ _).symm

theorem wf_get {T : Type} {s : InMemoryCache T} (h : s.wf) (k : String)
    (now : Int) : (s.get k now).2.wf := by
  unfold get
  cases hentry : mapGet s.cache k with
  | none => exact h
  | some entry =>
      simp only
      split
      · exact wf_delete h k
      · apply wf_updateAccessOrder h
        rw [mem_accessOrder_iff h k]
        rw [← mapGet_isSome_iff, hentry]
        rfl

theorem length_get_le {T : Type} {s : InMemoryCache T} (k : String)
    (now : Int) : (s.get k now).2.cache.length ≤ s.cache.length := by
  unfold get
  cases hentry : mapGet s.cache k with
  | none => exact le_refl _
  | some entry =>
      simp only
      split
      · exact length_delete_le s k
      · exact le_refl _

theorem wf_has {T : Type} {s : InMemoryCache T} (h : s.wf) (k : String)
    (now : Int) : (s.has k now).2.wf := by
  unfold has
  cases hentry : mapGet s.cache k with
  | none => exact h
  | some entry =>
      simp only
      split
      · exact wf_delete h k
      · exact h

theorem length_has_le {T : Type} {s : InMemoryCache T} (k : String)
    (now : Int) : (s.has k now).2.cache.length ≤ s.cache.length := by
  unfold has
  cases hentry : mapGet s.cache k with
  | none => exact le_refl _
  | some entry =>
      simp only
      split
      · exact length_delete_le s k
      · exact le_refl _

end InMemoryCache
theorem olderOf_foldl_spec (e : RateLimitEntry) (es : List RateLimitEntry) :
    es.foldl olderOf e ∈ e :: es ∧
    ∀ x ∈ e :: es, (es.foldl olderOf e).timestamp ≤ x.timestamp := by
  induction es generalizing e with
  | nil =>
      refine ⟨List.mem_cons_self _ _, ?_⟩
      intro x hx
      rw [List.mem_cons] at hx
      rcases hx with hx | hx
      · subst hx; exact le_refl _
      · simp at hx
  | cons c rest ih =>
      have step := ih (olderOf e c)
      have hchoice : olderOf e c = c ∨ olderOf e c = e := by
        unfold olderOf
        split
        · exact Or.inl rfl
        · exact Or.inr rfl
      have hboth :
          (olderOf e c).timestamp ≤ e.timestamp ∧
          (olderOf e c).timestamp ≤ c.timestamp := by
        unfold olderOf
        split <;> constructor <;> omega
      constructor
      · rw [List.foldl_cons]
        have h1 := step.1
        rw [List.mem_cons] at h1
        rcases h1 with h1 | h1
        · rw [List.mem_cons, List.mem_cons]
          rcases hchoice with hc | hc
          · exact Or.inr (Or.inl (h1.trans hc))
          · exact Or.inl (h1.trans hc)
        · rw [List.mem_cons, List.mem_cons]
          exact Or.inr (Or.inr h1)
      · intro x hx
        rw [List.foldl_cons]
        have hle : (rest.foldl olderOf (olderOf e c)).timestamp ≤
            (olderOf e c).timestamp :=
          step.2 _ (List.mem_cons_self _ _)
        rw [List.mem_cons, List.mem_cons] at hx
        rcases hx with hx | hx | hx
        · subst hx
          exact le_trans hle hboth.1
        · subst hx
          exact le_trans hle hboth.2
        · exact step.2 _ (List.mem_cons_of_mem _ hx)

/-! ## Theorems about the RateLimiter -/

/-- Claim C2: isAllowed counts only the timestamps inside the trailing
window, admits exactly when that count is strictly below the limit,
writes back the pruned record with the current timestamp appended only
on admission, and leaves the state completely unchanged on rejection;
and with limit 2 and window 1000 ms three immediate checks for one key
give true, true, false, while after the window has fully elapsed the
next check gives true again. -/
theorem isAllowed_sliding_window_spec :
    (∀ (s : RateLimiterState) (key : String) (now : Int),
      ((s.isAllowed key now).1 = true ↔
        inWindowTotal ((mapGet s.requests key).getD []) now s.windowMs <
          s.maxRequests) ∧
      (s.isAllowed key now).2 =
        (if inWindowTotal ((mapGet s.requests key).getD []) now s.windowMs <
            s.maxRequests then
          { s with
            requests := mapSet s.requests key
              ((((mapGet s.requests key).getD []).filter
                  (fun e => e.timestamp > now - s.windowMs)) ++
                [⟨now, 1⟩]) }
         else s)) ∧
    (rlDemo0.isAllowed "x" 0).1 = true ∧
    (rlDemo1.isAllowed "x" 0).1 = true ∧
    (rlDemo2.isAllowed "x" 0).1 = false ∧
    rlDemo3 = rlDemo2 ∧
    (rlDemo3.isAllowed "x" 1001).1 = true := by
  refine ⟨?_, by decide, by decide, by decide, by decide, by decide⟩
  intro s key now
  simp only [RateLimiterState.isAllowed, inWindowTotal]
  constructor
  · split
    · rename_i h
      simp only [true_iff]
      exact h
    · rename_i h
      simp only [Bool.false_eq_true, false_iff]
      exact h
  · split
    · rfl
    · rfl

/-- Claim C6 (counterexample): after admissions for x at times 0 and
600, at time 1100 the only record surviving the window prune is the
one at 600, so the claim predicts resetTime 600 + 1000 = 1600; but
getResetTime never prunes and returns the oldest stored timestamp plus
the window, 0 + 1000 = 1000. -/
theorem getInfo_resetTime_counterexample :
    (rlC6a.isAllowed "x" 0).1 = true ∧
    (rlC6b.isAllowed "x" 600).1 = true ∧
    ((mapGet rlC6c.requests "x").getD []).filter
      (fun e => e.timestamp > 1100 - rlC6c.windowMs) = [⟨600, 1⟩] ∧
    (rlC6c.getInfo "x" 1100).resetTime = 1000 ∧
    (rlC6c.getInfo "x" 1100).resetTime ≠ 600 + rlC6c.windowMs := by
  decide

/-- Claim C6 (amended): remaining is the limit minus the count of the
timestamps inside the trailing window, clamped at 0; resetTime is the
timestamp of the oldest stored record plus the window size, where the
oldest record is taken over all stored records without pruning expired
ones; resetTime equals the current time only when no records at all
are stored for the key. -/
theorem getInfo_spec :
    ∀ (s : RateLimiterState) (key : String) (now : Int),
      (s.getInfo key now).remaining =
        max 0 (s.maxRequests -
          inWindowTotal ((mapGet s.requests key).getD []) now s.windowMs) ∧
      (s.getInfo key now).limit = s.maxRequests ∧
      (s.getInfo key now).windowMs = s.windowMs ∧
      ((mapGet s.requests key).getD [] = [] →
        (s.getInfo key now).resetTime = now) ∧
      ∀ e0 es, (mapGet s.requests key).getD [] = e0 :: es →
        (∃ e ∈ e0 :: es,
          (s.getInfo key now).resetTime = e.timestamp + s.windowMs) ∧
        ∀ e ∈ e0 :: es,
          (s.getInfo key now).resetTime ≤ e.timestamp + s.windowMs := by
  intro s key now
  refine ⟨rfl, rfl, rfl, ?_, ?_⟩
  · intro h
    simp only [RateLimiterState.getInfo, RateLimiterState.getResetTime, h]
  · intro e0 es h
    have hfold := olderOf_foldl_spec e0 es
    have hval : (s.getInfo key now).resetTime =
        (es.foldl olderOf e0).timestamp + s.windowMs := by
      simp only [RateLimiterState.getInfo, RateLimiterState.getResetTime, h]
    constructor
    · exact ⟨es.foldl olderOf e0, hfold.1, hval⟩
    · intro e he
      rw [hval]
      exact add_le_add_right (hfold.2 e he) s.windowMs

/-- Witness for getInfo_spec: on the concrete state rlC6b, a fresh key
has resetTime now, and for x the resetTime is realised by a stored
record and bounds every stored record. -/
theorem getInfo_spec_witness :
    (rlC6b.getInfo "y" 5).resetTime = 5 ∧
    (∃ e ∈ [RateLimitEntry.mk 0 1],
      (rlC6b.getInfo "x" 700).resetTime = e.timestamp + 1000) :=
  ⟨(getInfo_spec rlC6b "y" 5).2.2.2.1 (by decide),
   ((getInfo_spec rlC6b "x" 700).2.2.2.2 ⟨0, 1⟩ [] (by decide)).1⟩

/-! ## Theorems about the InMemoryCache -/

/-- Claim C3 (counterexample): with ttl 50 an entry stored at time 0
is still returned by get at time 50, when the elapsed time equals the
ttl, because the expiry test in get requires the age to be strictly
greater than the ttl; the claim predicts absent. -/
theorem cache_ttl_boundary_counterexample :
    ((c5cache.set "k" 7 (some 50) 0).get "k" 50).1 = some 7 ∧
    ((c5cache.set "k" 7 (some 50) 0).get "k" 50).1 ≠ none := by
  decide

/-- Claim C3 (amended): for a strictly positive ttl, set followed by
get returns the value while the elapsed time is at most the ttl; once
the elapsed time strictly exceeds the ttl, get returns absent and the
entry is removed from the store. -/
theorem cache_set_get_ttl_spec :
    ∀ (T : Type) (s : InMemoryCache T) (k : String) (v : T)
      (ttl now d : Int),
      s.wf → 0 < s.maxSize → 0 < ttl →
      (d ≤ ttl → ((s.set k v (some ttl) now).get k (now + d)).1 = some v) ∧
      (ttl < d →
        ((s.set k v (some ttl) now).get k (now + d)).1 = none ∧
        mapGet ((s.set k v (some ttl) now).get k (now + d)).2.cache k =
          none) := by
  intro T s k v ttl now d hwf hpos httl
  have hne : ttl ≠ 0 := by omega
  have hget := InMemoryCache.mapGet_set_self hwf hpos k v (some ttl) now
  have heff : InMemoryCache.effectiveTtl (some ttl) s.defaultTtl = ttl := by
    simp [InMemoryCache.effectiveTtl, hne]
  rw [heff] at hget
  have hwf' := InMemoryCache.wf_set hwf k v (some ttl) now
  constructor
  · intro hd
    have hhit := InMemoryCache.get_hit hget
      (show now + d - now ≤ ttl by omega)
    rw [hhit]
  · intro hd
    have hexp := InMemoryCache.get_expired hget
      (show now + d - now > ttl by omega)
    rw [hexp]
    exact ⟨rfl, InMemoryCache.mapGet_delete_self hwf' k⟩

/-- Witness for cache_set_get_ttl_spec at ttl 50: a hit at elapsed
time 40 and a miss at elapsed time 51. -/
theorem cache_set_get_ttl_spec_witness :
    ((c5cache.set "kk" 7 (some 50) 0).get "kk" (0 + 40)).1 = some 7 ∧
    ((c5cache.set "kk" 7 (some 50) 0).get "kk" (0 + 51)).1 = none :=
  ⟨(cache_set_get_ttl_spec Int c5cache "kk" 7 50 0 40 (by decide) (by decide)
      (by decide)).1 (by decide),
   ((cache_set_get_ttl_spec Int c5cache "kk" 7 50 0 51 (by decide) (by decide)
      (by decide)).2 (by decide)).1⟩

/-- Claim C5 (counterexample): a set with ttl exactly 0 is not
immediately expired: because the source computes the effective ttl as
(ttl || defaultTtl) and 0 is falsy, the entry lives for the default
ttl, and an immediate get returns the value; the claim predicts
absent.  A set with ttl 0 is in fact identical to a set with no ttl
argument. -/
theorem cache_zero_ttl_counterexample :
    ((c5cache.set "k" 7 (some 0) 0).get "k" 0).1 = some 7 ∧
    ((c5cache.set "k" 7 (some 0) 0).get "k" 0).1 ≠ none ∧
    c5cache.set "k" 7 (some 0) 0 = c5cache.set "k" 7 none 0 := by
  decide

/-- Claim C5 (amended): a strictly negative ttl creates an entry that
is immediately expired, so any subsequent get returns absent and
removes it; a ttl of exactly 0 instead falls back to the default ttl,
behaving exactly like a set without a ttl argument. -/
theorem cache_nonpositive_ttl_spec :
    (∀ (T : Type) (s : InMemoryCache T) (k : String) (v : T)
      (t now d : Int),
      s.wf → 0 < s.maxSize → t < 0 → 0 ≤ d →
      ((s.set k v (some t) now).get k (now + d)).1 = none ∧
      mapGet ((s.set k v (some t) now).get k (now + d)).2.cache k = none) ∧
    (∀ (T : Type) (s : InMemoryCache T) (k : String) (v : T) (now : Int),
      s.set k v (some 0) now = s.set k v none now) := by
  constructor
  · intro T s k v t now d hwf hpos ht hd
    have hne : t ≠ 0 := by omega
    have hget := InMemoryCache.mapGet_set_self hwf hpos k v (some t) now
    have heff : InMemoryCache.effectiveTtl (some t) s.defaultTtl = t := by
      simp [InMemoryCache.effectiveTtl, hne]
    rw [heff] at hget
    have hwf' := InMemoryCache.wf_set hwf k v (some t) now
    have hexp := InMemoryCache.get_expired hget
      (show now + d - now > t by omega)
    rw [hexp]
    exact ⟨rfl, InMemoryCache.mapGet_delete_self hwf' k⟩
  · intro T s k v now
    simp [InMemoryCache.set, InMemoryCache.effectiveTtl]

/-- Witness for cache_nonpositive_ttl_spec: an entry set with ttl -5
is already absent at the same instant. -/
theorem cache_nonpositive_ttl_spec_witness :
    ((c5cache.set "neg" 3 (some (-5)) 0).get "neg" (0 + 0)).1 = none :=
  (cache_nonpositive_ttl_spec.1 Int c5cache "neg" 3 (-5) 0 0 (by decide)
    (by decide) (by decide) (by decide)).1

/-- Claim C4: overflowing a full cache with a fresh key evicts exactly
the head of the recency list (the least recently accessed key, which
is not necessarily the oldest inserted), stores the new key, and
leaves every other entry untouched; a get on a live key moves it to
the most recently used position without touching the entry map; and in
the concrete max-size-2 scenario, touching a via get changes the
victim of the next overflow from a to b. -/
theorem cache_lru_eviction_spec :
    (∀ (T : Type) (s : InMemoryCache T) (k : String) (v : T)
      (ttl : Option Int) (now : Int) (lru : String) (rest : List String),
      s.wf → mapGet s.cache k = none → s.cache.length = s.maxSize →
      0 < s.maxSize → s.accessOrder = lru :: rest →
      (s.set k v ttl now).accessOrder = rest ++ [k] ∧
      mapGet (s.set k v ttl now).cache lru = none ∧
      (mapGet (s.set k v ttl now).cache k).isSome = true ∧
      ∀ k2, k2 ≠ lru → k2 ≠ k →
        mapGet (s.set k v ttl now).cache k2 = mapGet s.cache k2) ∧
    (∀ (T : Type) (s : InMemoryCache T) (k : String)
      (entry : CacheEntry T) (now : Int),
      s.wf → mapGet s.cache k = some entry →
      now - entry.timestamp ≤ entry.ttl →
      (s.get k now).1 = some entry.data ∧
      (s.get k now).2.cache = s.cache ∧
      (s.get k now).2.accessOrder = s.accessOrder.erase k ++ [k]) ∧
    (mapGet c4e.cache "b" = none ∧
      (mapGet c4e.cache "a").isSome = true ∧
      (mapGet c4e.cache "c").isSome = true ∧
      c4e.accessOrder = ["a", "c"] ∧
      mapGet c4f.cache "a" = none ∧
      (mapGet c4f.cache "b").isSome = true ∧
      c4f.accessOrder = ["b", "c"]) := by
  refine ⟨?_, ?_, by decide⟩
  · intro T s k v ttl now lru rest hwf hnone hfull hpos hao
    obtain ⟨h1, h2, h3, h4⟩ :=
      InMemoryCache.set_fresh_full hwf hnone hfull hpos hao v ttl now
    exact ⟨h1, h2, by rw [h3]; rfl, h4⟩
  · intro T s k entry now hwf hentry hlive
    have hhit := InMemoryCache.get_hit hentry hlive
    rw [hhit]
    exact ⟨rfl, rfl, rfl⟩

/-- Witness for cache_lru_eviction_spec: on the full cache holding a
then b, setting c evicts a (the recency head); and a get on the live
key a returns its value. -/
theorem cache_lru_eviction_spec_witness :
    (c4c.set "c" 3 none 1).accessOrder = ["b"] ++ ["c"] ∧
    (c4c.get "a" 1).1 = some 1 :=
  ⟨(cache_lru_eviction_spec.1 Int c4c "c" 3 none 1 "a" ["b"] (by decide)
      (by decide) (by decide) (by decide) (by decide)).1,
   (cache_lru_eviction_spec.2.1 Int c4c "a" ⟨1, 0, 300000⟩ 1 (by decide)
      (by decide) (by decide)).1⟩

/-- Claim C10: every cache operation preserves the bookkeeping
invariant (the recency list holds exactly the keys of the store, each
once) and the size bound, and set leaves the key with exactly one
entry and one recency position, so repeated sets are idempotent on the
bookkeeping. -/
theorem cache_bookkeeping_invariant :
    ∀ (T : Type) (s : InMemoryCache T) (k : String) (v : T)
      (ttl : Option Int) (now : Int),
      s.wf → s.cache.length ≤ s.maxSize →
      ((s.set k v ttl now).wf ∧
        (s.set k v ttl now).cache.length ≤ s.maxSize) ∧
      ((s.get k now).2.wf ∧ (s.get k now).2.cache.length ≤ s.maxSize) ∧
      ((s.has k now).2.wf ∧ (s.has k now).2.cache.length ≤ s.maxSize) ∧
      ((s.delete k).2.wf ∧ (s.delete k).2.cache.length ≤ s.maxSize) ∧
      (s.clear.wf ∧ s.clear.cache.length ≤ s.maxSize) ∧
      (0 < s.maxSize →
        (s.set k v ttl now).accessOrder.count k = 1 ∧
        ((s.set k v ttl now).cache.map Prod.fst).count k = 1) := by
  intro T s k v ttl now hwf hlen
  refine ⟨⟨InMemoryCache.wf_set hwf k v ttl now,
      InMemoryCache.length_set_le hwf hlen k v ttl now⟩,
    ⟨InMemoryCache.wf_get hwf k now,
      le_trans (InMemoryCache.length_get_le k now) hlen⟩,
    ⟨InMemoryCache.wf_has hwf k now,
      le_trans (InMemoryCache.length_has_le k now) hlen⟩,
    ⟨InMemoryCache.wf_delete hwf k,
      le_trans (InMemoryCache.length_delete_le s k) hlen⟩,
    ⟨⟨List.nodup_nil, List.Perm.nil⟩, Nat.zero_le _⟩,
    fun hpos => InMemoryCache.set_count_one hwf hpos k v ttl now⟩

/-- Witness for cache_bookkeeping_invariant: a set on the empty cache
yields a well formed state in which the key appears once in the
recency list. -/
theorem cache_bookkeeping_invariant_witness :
    (c5cache.set "w" (1 : Int) none 0).wf ∧
    (c5cache.set "w" (1 : Int) none 0).accessOrder.count "w" = 1 :=
  ⟨(cache_bookkeeping_invariant Int c5cache "w" 1 none 0 (by decide)
      (by decide)).1.1,
   ((cache_bookkeeping_invariant Int c5cache "w" 1 none 0 (by decide)
      (by decide)).2.2.2.2.2 (by decide)).1⟩


/-! ## Theorems about the ApiClient -/

/-- On a rejected admission check, isAllowed leaves the limiter state
untouched. -/
theorem isAllowed_state_of_false {s : RateLimiterState} {key : String}
    {now : Int} (h : (s.isAllowed key now).1 = false) :
    (s.isAllowed key now).2 = s := by
  simp only [RateLimiterState.isAllowed] at h ⊢
  split at h
  · simp at h
  · rename_i hc
    rw [if_neg hc]

/-- Claim C1 (code bug evaluation): with maxRetries 3 and a transport
answering HTTP 404 on every attempt, the pipeline performs 4 transport
dispatches, that is the 404 is retried 3 times, because the response
interceptor replaces the axios error with a plain LinkLibraryError
before the retry decision runs, and shouldRetry reads the absent
response field of that error as a network failure; the final surfaced
error is the base LinkLibraryError carrying status 404, not the
ValidationError class.  shouldRetry applied directly to a 404 response
status answers false, so the composition contradicts the intent
documented in shouldRetry itself. -/
theorem http404_retried_code_bug :
    makeRequestWithRetry (T := Int)
      (fun _ => .error ⟨some (404, none), none, none⟩) 3 1 =
      (.error (.linkLibraryError "HTTP 404 error" 404), 4) ∧
    handleApiError ⟨some (404, none), none, none⟩ =
      .linkLibraryError "HTTP 404 error" 404 ∧
    (ClassifiedError.linkLibraryError "HTTP 404 error" 404).isValidationError
      = false ∧
    shouldRetry (some 404) = false ∧
    shouldRetry (ClassifiedError.linkLibraryError "HTTP 404 error"
      404).responseStatus = true := by
  decide

/-- Claim C7: when the admission check rejects a request, request
fails immediately with a RateLimitError whose message is built from
the limiter info (limit and window) for the computed rate limit key,
performs no transport dispatch, and leaves both the cache and the
limiter unchanged. -/
theorem request_admission_rejection_spec :
    ∀ (T : Type) (truthy : T → Bool) (s : ApiClientState T)
      (method url params : String)
      (transport : Nat → Except RawApiError T)
      (maxRetries : Nat) (now : Int),
      (s.limiter.isAllowed ("api:" ++ method ++ ":" ++ url) now).1 = false →
      ApiClient.request truthy s method url params transport maxRetries now =
        (.error (.rateLimitError
          ("Rate limit exceeded for " ++ method ++ " " ++ url ++
            ". Limit: " ++
            toString (s.limiter.getInfo ("api:" ++ method ++ ":" ++ url)
              now).limit ++
            " requests per " ++
            toString (s.limiter.getInfo ("api:" ++ method ++ ":" ++ url)
              now).windowMs ++ "ms.")),
          ⟨s.limiter, s.cache⟩, 0) := by
  intro T truthy s method url params transport maxRetries now hrej
  have hstate := isAllowed_state_of_false hrej
  simp only [ApiClient.request, hrej, hstate, if_pos]

/-- Witness for request_admission_rejection_spec: a limiter with limit
0 rejects a GET, and request returns the RateLimitError with an
unchanged state and zero dispatches. -/
theorem request_admission_rejection_spec_witness :
    (apiStateC7.limiter.isAllowed ("api:" ++ "GET" ++ ":" ++ "/links")
      0).1 = false ∧
    ApiClient.request (fun _ => true) apiStateC7 "GET" "/links" ""
      (fun _ => .error ⟨none, none, none⟩) 3 0 =
      (.error (.rateLimitError
        "Rate limit exceeded for GET /links. Limit: 0 requests per 60000ms."),
        ⟨apiStateC7.limiter, apiStateC7.cache⟩, 0) :=
  ⟨by decide,
   (request_admission_rejection_spec Int (fun _ => true) apiStateC7 "GET"
      "/links" "" (fun _ => .error ⟨none, none, none⟩) 3 0
      (by decide)).trans (by decide)⟩

/-! ## Theorems about the AuthService -/

/-- Claim C8: when the armed refresh timer fires and the refresh call
fails, the stored credential is cleared (currentUser and the api token
are both gone, so isAuthenticated is false) and the timer is not
re-armed; when the refresh call succeeds, the credential is replaced
by the fresh token and user and the next refresh is re-armed. -/
theorem scheduled_refresh_spec :
    ∀ (s : AuthServiceState) (now : Int),
      (∀ e : ClassifiedError,
        (AuthService.onRefreshTimerFire s (.error e) now).currentUser =
          none ∧
        (AuthService.onRefreshTimerFire s (.error e) now).apiToken = none ∧
        AuthService.isAuthenticated
          (AuthService.onRefreshTimerFire s (.error e) now) = false ∧
        (AuthService.onRefreshTimerFire s (.error e) now).tokenRefreshTimer
          = false) ∧
      (∀ r : LinkLibraryAuthResponse,
        (AuthService.onRefreshTimerFire s (.ok r) now).currentUser =
          some r.user ∧
        (AuthService.onRefreshTimerFire s (.ok r) now).apiToken =
          some r.access_token ∧
        AuthService.isAuthenticated
          (AuthService.onRefreshTimerFire s (.ok r) now) = true ∧
        (AuthService.onRefreshTimerFire s (.ok r) now).tokenRefreshTimer
          = true) := by
  intro s now
  constructor
  · intro e
    simp [AuthService.onRefreshTimerFire, AuthService.refreshToken,
      AuthService.clearToken, AuthService.isAuthenticated]
  · intro r
    simp [AuthService.onRefreshTimerFire, AuthService.refreshToken,
      AuthService.setupTokenRefresh, AuthService.setToken,
      AuthService.isAuthenticated]

/-- Claim C9 (counterexample): installing a token via setToken,
including the environment token installed by the constructor, does not
make isAuthenticated true, because isAuthenticated only checks
currentUser and setToken never touches it; the claim predicts true. -/
theorem isAuthenticated_setToken_counterexample :
    AuthService.isAuthenticated
      (AuthService.mkInit (some "env-token") 1000 300000 0) = false ∧
    AuthService.isAuthenticated
      (AuthService.setToken (AuthService.mkInit none 1000 300000 0)
        "tok" 0) = false ∧
    (AuthService.mkInit (some "env-token") 1000 300000 0).apiToken =
      some "env-token" := by
  decide

/-- Claim C9 (amended): isAuthenticated is true exactly when a current
user is recorded; setToken installs the token for requests but leaves
isAuthenticated unchanged, and in particular a fresh instance built
from an environment token is not authenticated; clearToken always
leaves it false; a successful refresh, which stores the user, makes it
true. -/
theorem isAuthenticated_spec :
    ∀ (s : AuthServiceState) (t : String) (now : Int)
      (r : LinkLibraryAuthResponse) (envToken : Option String)
      (cacheMaxSize : Nat) (cacheTtl now2 : Int),
      (AuthService.isAuthenticated s = true ↔ s.currentUser ≠ none) ∧
      AuthService.isAuthenticated (AuthService.setToken s t now) =
        AuthService.isAuthenticated s ∧
      AuthService.isAuthenticated (AuthService.clearToken s) = false ∧
      AuthService.isAuthenticated
        (AuthService.refreshToken s (.ok r) now).2 = true ∧
      AuthService.isAuthenticated
        (AuthService.mkInit envToken cacheMaxSize cacheTtl now2) = false := by
  intro s t now r envToken cacheMaxSize cacheTtl now2
  refine ⟨?_, rfl, rfl, rfl, ?_⟩
  · simp [AuthService.isAuthenticated, Option.isSome_iff_ne_none]
  · cases envToken <;> rfl
